import Mathlib

/-!
Shallow embedding of the board-state and win-detection subsystem of the
bingo web application (src/index.js and src/unnamed/part_000).

The PostgreSQL store is modelled as an association list from table names to
tables; a table is its list of rows plus the next SERIAL id.  A row of a
user's `<username>_bingo` table is a `Cell` (id, value, checked, position).
Both insert paths always set `position`, so `position` is modelled as a
`Nat` rather than a nullable column.  Randomness (`ORDER BY RANDOM()`) is
modelled by passing the shuffled phrase list as an explicit argument;
`LIMIT 25` is the explicit `List.take 25`.
-/

namespace Bingo

/-- A row of a user's bingo table:
`id SERIAL PRIMARY KEY, value VARCHAR(50), checked BOOLEAN DEFAULT FALSE,
position INTEGER` (src/index.js lines 46-51). -/
structure Cell where
  id : Nat
  value : String
  checked : Bool
  position : Nat
deriving DecidableEq, Repr

/-- The characters the sanitizer keeps: the regex class `[a-zA-Z0-9_]`
(src/index.js line 37). -/
def isTableNameChar (c : Char) : Bool :=
  (c ≥ 'a' && c ≤ 'z') || (c ≥ 'A' && c ≤ 'Z') || (c ≥ '0' && c ≤ '9') || c == '_'

/-- `username.replace(/[^a-zA-Z0-9_]/g, "")` (src/index.js line 37,
src/unnamed/part_000 lines 32-34): delete every character outside
`[a-zA-Z0-9_]`. -/
def sanitizeTableName (username : String) : String :=
  String.mk (username.data.filter isTableNameChar)

/-- Every board operation computes its table name as
`sanitizeTableName(username + "_bingo")`. -/
def tableFor (username : String) : String :=
  sanitizeTableName (username ++ "_bingo")

/-- The row ordering relation of `ORDER BY position`: ascending
position. -/
def posLe (a b : Cell) : Prop :=
  a.position ≤ b.position

instance : DecidableRel posLe := fun a b => Nat.decLe a.position b.position

instance : IsTotal Cell posLe :=
  ⟨fun a b => Nat.le_total a.position b.position⟩

instance : IsTrans Cell posLe :=
  ⟨fun _ _ _ hab hbc => Nat.le_trans hab hbc⟩

/-- `ORDER BY position` (src/index.js lines 92-96): ascending sort of the
rows by their position. -/
def sortByPos (rows : List Cell) : List Cell :=
  List.insertionSort posLe rows

/-- A 5×5 grid as built by `checkForBingo`: a list of rows of booleans. -/
abbrev Grid := List (List Bool)

/-- The grid construction of src/index.js lines 102-110.  The JS code
initialises a 5×5 all-`false` grid and then runs
`board.forEach((cell, index) => grid[index/5][index%5] = cell.checked)`:
slot `(r, c)` is written exactly when `r*5+c < board.length` and receives
`checks[r*5+c]`, otherwise it keeps its initial `false`.  When some index
reaches 25 (i.e. the board has more than 25 rows), `grid[index/5]` is
`undefined` and the assignment throws a TypeError, modelled as `none`. -/
def buildGrid (checks : List Bool) : Option Grid :=
  if checks.length ≤ 25 then
    some ((List.range 5).map fun r => (List.range 5).map fun c =>
      (checks[r * 5 + c]?).getD false)
  else none

/-- "Check rows" loop (src/index.js lines 113-115): some grid row is
all-`true`. -/
def rowWin (grid : Grid) : Bool :=
  grid.any fun row => row.all id

/-- "Check columns" loop (src/index.js lines 118-120):
`grid.every((row) => row[col])` for some `col < 5`. -/
def colWin (grid : Grid) : Bool :=
  (List.range 5).any fun c => grid.all fun row => (row[c]?).getD false

/-- `diagonal1` (src/index.js lines 123-125): `grid[i][i]` for every
`i < 5`. -/
def diagWin1 (grid : Grid) : Bool :=
  (List.range 5).all fun i => ((grid[i]?).bind fun row => row[i]?).getD false

/-- `diagonal2` (src/index.js lines 126-128): `grid[i][size - 1 - i]` for
every `i < 5`. -/
def diagWin2 (grid : Grid) : Bool :=
  (List.range 5).all fun i => ((grid[i]?).bind fun row => row[4 - i]?).getD false

/-- The board-level core of `checkForBingo` (src/index.js lines 88-131):
sort the rows by position, build the 5×5 grid by rank index, and report
whether a row, a column, or a diagonal is fully checked.  `none` is the
TypeError thrown for boards with more than 25 rows. -/
def checkForBingoRows (rows : List Cell) : Option Bool :=
  match buildGrid ((sortByPos rows).map Cell.checked) with
  | none => none
  | some grid => some (rowWin grid || colWin grid || diagWin1 grid || diagWin2 grid)

/-- A user's bingo table: its rows plus the next value of the SERIAL `id`
sequence (TRUNCATE without RESTART IDENTITY keeps the sequence). -/
structure Table where
  rows : List Cell
  nextId : Nat
deriving DecidableEq, Repr

/-- The PostgreSQL database: an association list from table names to
tables.  Only the per-user `..._bingo` tables are modelled. -/
abbrev Store := List (String × Table)

/-- Look a table up by name. -/
def getTable (store : Store) (t : String) : Option Table :=
  match store with
  | [] => none
  | (name, tbl) :: rest => if name = t then some tbl else getTable rest t

/-- Replace the contents of table `t` (a no-op on tables with another
name). -/
def setTable (store : Store) (t : String) (tbl : Table) : Store :=
  match store with
  | [] => []
  | (name, x) :: rest =>
    (if name = t then (name, tbl) else (name, x)) :: setTable rest t tbl

/-- `CREATE TABLE IF NOT EXISTS "tableName" (...)` (src/index.js
lines 45-52 and 184-191): adds a fresh empty table when absent. -/
def createTableIfNotExists (store : Store) (t : String) : Store :=
  match getTable store t with
  | some _ => store
  | none => store ++ [(t, ⟨[], 1⟩)]

/-- The 25 rows inserted by `INSERT INTO "tableName" (value, position)
VALUES ...` with `queryParams = rows.flatMap((item, index) => [item.value,
index])` (src/index.js lines 202-217): the i-th sampled value gets
position `pos + i` (the call sites start at 0), `checked` takes its
column default `false`, and SERIAL assigns consecutive ids. -/
def mkCells (startId pos : Nat) : List String → List Cell
  | [] => []
  | v :: vs => ⟨startId, v, false, pos⟩ :: mkCells (startId + 1) (pos + 1) vs

/-- Append freshly inserted rows to a table, advancing the SERIAL
sequence. -/
def insertValues (tbl : Table) (values : List String) : Table :=
  ⟨tbl.rows ++ mkCells tbl.nextId 0 values, tbl.nextId + values.length⟩

/-- The errors the modelled operations can raise. -/
inductive DBError where
  /-- `relation ... does not exist`: a query against a missing table. -/
  | noSuchTable : DBError
  /-- Provisioning with an empty phrase pool: src/unnamed/part_000
  line 193 throws `"No bingo items available"` explicitly; in src/index.js
  the same situation produces a malformed `INSERT ... VALUES ` statement,
  which PostgreSQL rejects, so the operation throws there as well. -/
  | noBingoItems : DBError
  /-- The JS TypeError thrown by `checkForBingo`'s grid construction when
  the table holds more than 25 rows (`grid[row]` is `undefined`). -/
  | typeError : DBError
deriving DecidableEq, Repr

/-- `createOrResetBingoBoard(username)` (src/index.js lines 180-222,
src/unnamed/part_000 lines 155-218): create the table if needed, TRUNCATE
it, draw `SELECT value FROM bingo_items ORDER BY RANDOM() LIMIT 25`
(modelled as `shuffled.take 25`, with `shuffled` the randomly permuted
pool), and insert the sample with positions 0.. in sampled order.  An
empty sample makes the operation throw (see `DBError.noBingoItems`). -/
def createOrResetBingoBoard (shuffled : List String) (store : Store)
    (username : String) : Except DBError Store :=
  let t := tableFor username
  let s1 := createTableIfNotExists store t
  let tbl := (getTable s1 t).getD ⟨[], 1⟩
  let truncated : Table := ⟨[], tbl.nextId⟩
  let sample := shuffled.take 25
  if sample.isEmpty then
    .error .noBingoItems
  else
    .ok (setTable s1 t (insertValues truncated sample))

/-- `ensureBingoBoardExists(username)` (src/index.js lines 41-84): create
the table if needed, `SELECT COUNT(*)`, and only when the count is 0 draw
a 25-phrase sample and insert it; otherwise leave the table untouched.
The empty-sample insert throws just as in `createOrResetBingoBoard`. -/
def ensureBingoBoardExists (shuffled : List String) (store : Store)
    (username : String) : Except DBError Store :=
  let t := tableFor username
  let s1 := createTableIfNotExists store t
  let tbl := (getTable s1 t).getD ⟨[], 1⟩
  if tbl.rows.length = 0 then
    let sample := shuffled.take 25
    if sample.isEmpty then
      .error .noBingoItems
    else
      .ok (setTable s1 t (insertValues tbl sample))
  else
    .ok s1

/-- `UPDATE "tableName" SET checked = NOT checked WHERE id = $1` applied
to one row: flip `checked` when the id matches, else leave the row
alone. -/
def toggleCell (id : Nat) (c : Cell) : Cell :=
  if c.id = id then { c with checked := !c.checked } else c

/-- The same UPDATE applied to a whole table's rows: every row whose id
matches is flipped; a row set matching no row is a successful no-op. -/
def toggleRows (rows : List Cell) (id : Nat) : List Cell :=
  rows.map (toggleCell id)

/-- The toggle path shared by the `cellClicked` socket handler
(src/index.js lines 354-383) and `POST /bingo/click`
(src/unnamed/part_000 lines 303-348): run the UPDATE above against
`tableFor username`.  A missing table makes PostgreSQL reject the UPDATE
(`DBError.noSuchTable`); an id matching no row succeeds and changes
nothing. -/
def cellClicked (store : Store) (username : String) (id : Nat) :
    Except DBError Store :=
  let t := tableFor username
  match getTable store t with
  | none => .error .noSuchTable
  | some tbl => .ok (setTable store t { tbl with rows := toggleRows tbl.rows id })

/-- `checkForBingo(username)` (src/index.js lines 88-131): read
`SELECT checked, position FROM "tableName" ORDER BY position` and run the
grid check of `checkForBingoRows`.  A missing table makes the SELECT
throw. -/
def checkForBingo (store : Store) (username : String) : Except DBError Bool :=
  match getTable store (tableFor username) with
  | none => .error .noSuchTable
  | some tbl =>
    match checkForBingoRows tbl.rows with
    | none => .error .typeError
    | some b => .ok b

/-!
Specification-side definitions.  `winByRank` states what the code actually
computes: the grid slot `(r, c)` holds the checked flag of the cell of
*rank* `r*5+c` in position order.  `winByPos` follows the spec's words:
the grid slot `(r, c)` holds the checked flag of the cell whose *position
value* is `r*5+c` (row = position div 5, column = position mod 5).
-/

/-- The checked flag of the cell of rank `p` in position order (`false`
when no such cell exists). -/
def rankChecked (rows : List Cell) (p : Nat) : Bool :=
  (((sortByPos rows)[p]?).map Cell.checked).getD false

/-- A full row, full column, main diagonal (`r = c`) or anti-diagonal
(`r + c = 4`) in the grid indexed by rank. -/
def winByRank (rows : List Cell) : Bool :=
  ((List.range 5).any fun r => (List.range 5).all fun c => rankChecked rows (r * 5 + c)) ||
  ((List.range 5).any fun c => (List.range 5).all fun r => rankChecked rows (r * 5 + c)) ||
  ((List.range 5).all fun i => rankChecked rows (i * 5 + i)) ||
  ((List.range 5).all fun i => rankChecked rows (i * 5 + (4 - i)))

/-- The checked flag of the cell whose position value is `p` (`false` when
no such cell exists). -/
def posChecked (rows : List Cell) (p : Nat) : Bool :=
  ((rows.find? fun c => c.position == p).map Cell.checked).getD false

/-- A full row, full column, main diagonal or anti-diagonal in the 5×5
grid of the spec: `grid[r][c] = checked` of the cell at position
`r*5+c`. -/
def winByPos (rows : List Cell) : Bool :=
  ((List.range 5).any fun r => (List.range 5).all fun c => posChecked rows (r * 5 + c)) ||
  ((List.range 5).any fun c => (List.range 5).all fun r => posChecked rows (r * 5 + c)) ||
  ((List.range 5).all fun i => posChecked rows (i * 5 + i)) ||
  ((List.range 5).all fun i => posChecked rows (i * 5 + (4 - i)))

/-- A concrete 25-cell demonstration board: positions `0..24` in order,
with exactly the main diagonal (positions 0, 6, 12, 18, 24) checked. -/
def diagBoard : List Cell :=
  (List.range 25).map fun i => ⟨i + 1, "phrase", decide (i % 6 = 0), i⟩

/-- A concrete store holding `diagBoard` as alice's bingo table. -/
def diagStore : Store := [(tableFor "alice", ⟨diagBoard, 26⟩)]

/-- A 5-cell board whose positions are 20..24 (the bottom grid row by
position value) with every cell checked: by rank they land in grid row 0. -/
def shortBoard : List Cell :=
  (List.range 5).map fun i => ⟨i + 1, "phrase", true, 20 + i⟩

/-- The 30 phrases seeded into `bingo_items` by `initializeTables`
(src/index.js lines 154-170). -/
def bingoItems : List String :=
  ["Face mask called", "Missed fieldgoal", "Eagles fumble", "Chiefs fumble",
   "Eagles throw interception", "Chiefs throw interception", "Safety",
   "Eagles lead at halftime", "Chiefs lead at halftime", "2pt conversion",
   "Interception to a touchdown", "fumble to a touchdown",
   "Eagles lead at end of 1st qtr", "Chiefs lead at end of 1st qtr",
   "Eagles lead at end of 3rd qtr", "Chiefs lead at end of 3rd quarter",
   "Game tied at end of 4th qtr", "Eagles win the game", "Chiefs win the game",
   "Coaches challenge", "Punt return for TD", "Kickoff return for TD",
   "Successful 4th down conversion", "Eagles quarterback sacked",
   "Chiefs quarterback sacked", "Rushing TD", "Passing TD", "quarterback sneak",
   "Pass interference called", "Offensive holding called"]

/-- A small concrete board used by the witnesses: three cells, one of
them checked. -/
def demoRows : List Cell :=
  [⟨1, "Safety", false, 0⟩, ⟨2, "2pt conversion", true, 1⟩,
   ⟨3, "Coaches challenge", false, 2⟩]

/-- A concrete store with bingo tables for alice and bob. -/
def demoStore : Store :=
  [(tableFor "alice", ⟨demoRows, 4⟩), (tableFor "bob", ⟨demoRows, 4⟩)]

/-- A 26-cell board: one row more than the 5×5 grid can hold. -/
def bigBoard : List Cell :=
  (List.range 26).map fun i => ⟨i + 1, "phrase", false, i⟩

/-- A store whose alice table exists but is empty. -/
def emptyTableStore : Store := [(tableFor "alice", ⟨[], 1⟩)]

/-!  Helper lemmas about the grid construction and sorting. -/

theorem any_congr_mem {l : List Nat} {f g : Nat → Bool}
    (h : ∀ i ∈ l, f i = g i) : l.any f = l.any g := by
  induction l with
  | nil => rfl
  | cons a t ih =>
    simp only [List.any_cons]
    rw [h a (List.mem_cons_self a t), ih fun i hi => h i (List.mem_cons_of_mem a hi)]

theorem all_congr_mem {l : List Nat} {f g : Nat → Bool}
    (h : ∀ i ∈ l, f i = g i) : l.all f = l.all g := by
  induction l with
  | nil => rfl
  | cons a t ih =>
    simp only [List.all_cons]
    rw [h a (List.mem_cons_self a t), ih fun i hi => h i (List.mem_cons_of_mem a hi)]

theorem any_map_fn {α β : Type} (f : α → β) (l : List α) (p : β → Bool) :
    (l.map f).any p = l.any fun a => p (f a) := by
  induction l with
  | nil => rfl
  | cons a t ih => simp only [List.map_cons, List.any_cons, ih]

theorem all_map_fn {α β : Type} (f : α → β) (l : List α) (p : β → Bool) :
    (l.map f).all p = l.all fun a => p (f a) := by
  induction l with
  | nil => rfl
  | cons a t ih => simp only [List.map_cons, List.all_cons, ih]

theorem sortByPos_perm (rows : List Cell) : (sortByPos rows).Perm rows :=
  List.perm_insertionSort posLe rows

theorem length_sortByPos (rows : List Cell) :
    (sortByPos rows).length = rows.length :=
  (sortByPos_perm rows).length_eq

/-- On a board of at most 25 rows the code's grid check evaluates exactly
the rank-indexed win condition. -/
theorem checkForBingoRows_eq_winByRank (rows : List Cell)
    (h : rows.length ≤ 25) :
    checkForBingoRows rows = some (winByRank rows) := by
  have hlen : ((sortByPos rows).map Cell.checked).length ≤ 25 := by
    simp [length_sortByPos, h]
  have hcell : ∀ p : Nat,
      ((((sortByPos rows).map Cell.checked))[p]?).getD false = rankChecked rows p := by
    intro p
    simp [rankChecked]
  rw [checkForBingoRows, buildGrid, if_pos hlen]
  have hrow :
      rowWin ((List.range 5).map fun r => (List.range 5).map fun c =>
        ((((sortByPos rows).map Cell.checked))[r * 5 + c]?).getD false) =
      ((List.range 5).any fun r => (List.range 5).all fun c =>
        rankChecked rows (r * 5 + c)) := by
    rw [rowWin, any_map_fn]
    simp only [all_map_fn, id_eq, hcell]
  have hcol :
      colWin ((List.range 5).map fun r => (List.range 5).map fun c =>
        ((((sortByPos rows).map Cell.checked))[r * 5 + c]?).getD false) =
      ((List.range 5).any fun c => (List.range 5).all fun r =>
        rankChecked rows (r * 5 + c)) := by
    rw [colWin]
    simp only [all_map_fn]
    refine any_congr_mem fun c hc => all_congr_mem fun r _ => ?_
    have hc5 : c < 5 := List.mem_range.mp hc
    rw [List.getElem?_map, List.getElem?_range hc5]
    simp [rankChecked]
  have hd1 :
      diagWin1 ((List.range 5).map fun r => (List.range 5).map fun c =>
        ((((sortByPos rows).map Cell.checked))[r * 5 + c]?).getD false) =
      ((List.range 5).all fun i => rankChecked rows (i * 5 + i)) := by
    rw [diagWin1]
    refine all_congr_mem fun i hi => ?_
    have hi5 : i < 5 := List.mem_range.mp hi
    rw [List.getElem?_map, List.getElem?_range hi5]
    simp only [Option.map_some', Option.some_bind]
    rw [List.getElem?_map, List.getElem?_range hi5]
    simp [rankChecked]
  have hd2 :
      diagWin2 ((List.range 5).map fun r => (List.range 5).map fun c =>
        ((((sortByPos rows).map Cell.checked))[r * 5 + c]?).getD false) =
      ((List.range 5).all fun i => rankChecked rows (i * 5 + (4 - i))) := by
    rw [diagWin2]
    refine all_congr_mem fun i hi => ?_
    have hi5 : i < 5 := List.mem_range.mp hi
    have hi4 : 4 - i < 5 := by omega
    rw [List.getElem?_map, List.getElem?_range hi5]
    simp only [Option.map_some', Option.some_bind]
    rw [List.getElem?_map, List.getElem?_range hi4]
    simp [rankChecked]
  refine congrArg some ?_
  rw [hrow, hcol, hd1, hd2, winByRank]

theorem sortByPos_pairwise (rows : List Cell) :
    (sortByPos rows).Pairwise fun a b => a.position ≤ b.position :=
  List.sorted_insertionSort posLe rows

theorem sortByPos_map_position (rows : List Cell)
    (hperm : (rows.map Cell.position).Perm (List.range 25)) :
    (sortByPos rows).map Cell.position = List.range 25 := by
  refine List.eq_of_perm_of_sorted
    (((sortByPos_perm rows).map Cell.position).trans hperm) ?_
    (List.sorted_le_range 25)
  exact List.pairwise_map.mpr (sortByPos_pairwise rows)

/-- On a board whose positions are a permutation of `0..24`, looking a
slot up by rank in position order agrees with looking it up by position
value. -/
theorem rankChecked_eq_posChecked (rows : List Cell)
    (hperm : (rows.map Cell.position).Perm (List.range 25))
    {p : Nat} (hp : p < 25) :
    rankChecked rows p = posChecked rows p := by
  have hmapeq := sortByPos_map_position rows hperm
  have hlen : (sortByPos rows).length = 25 := by
    have := congrArg List.length hmapeq
    simpa using this
  have hp' : p < (sortByPos rows).length := by omega
  set cell := (sortByPos rows).get ⟨p, hp'⟩ with hcelldef
  have hget : (sortByPos rows)[p]? = some cell := by
    rw [List.getElem?_eq_getElem hp']
    rfl
  have hcellpos : cell.position = p := by
    have h1 : ((sortByPos rows).map Cell.position)[p]? = some cell.position := by
      rw [List.getElem?_map, hget]
      rfl
    rw [hmapeq, List.getElem?_range hp] at h1
    exact (Option.some.inj h1).symm
  have hcellmem : cell ∈ rows := by
    have : cell ∈ sortByPos rows := List.get_mem _ _ _
    exact (sortByPos_perm rows).subset this
  have hnodup : (rows.map Cell.position).Nodup :=
    hperm.nodup_iff.mpr (List.nodup_range 25)
  have hfind : ∃ d, rows.find? (fun c => c.position == p) = some d := by
    have : (rows.find? (fun c => c.position == p)).isSome := by
      rw [List.find?_isSome]
      exact ⟨cell, hcellmem, by simp [hcellpos]⟩
    exact Option.isSome_iff_exists.mp this
  obtain ⟨d, hd⟩ := hfind
  have hdpos : d.position = p := by
    have := List.find?_some hd
    simpa using this
  have hdmem : d ∈ rows := List.mem_of_find?_eq_some hd
  have hdc : d = cell :=
    List.inj_on_of_nodup_map hnodup hdmem hcellmem (by rw [hdpos, hcellpos])
  rw [rankChecked, posChecked, hget, hd, hdc]

/-- C1: on a board of exactly 25 cells whose positions form a permutation
of `{0..24}`, `checkForBingo` returns `true` exactly when the 5×5 grid
given by `row = position / 5`, `col = position % 5` has a full row, a
full column, the main diagonal, or the anti-diagonal entirely checked
(`winByPos`). -/
theorem checkForBingo_eq_winByPos (store : Store) (username : String)
    (tbl : Table) (htbl : getTable store (tableFor username) = some tbl)
    (h25 : tbl.rows.length = 25)
    (hperm : (tbl.rows.map Cell.position).Perm (List.range 25)) :
    checkForBingo store username = .ok (winByPos tbl.rows) := by
  have hrank := checkForBingoRows_eq_winByRank tbl.rows (by omega)
  have hpt : ∀ p, p < 25 → rankChecked tbl.rows p = posChecked tbl.rows p :=
    fun p hp => rankChecked_eq_posChecked tbl.rows hperm hp
  have hwin : winByRank tbl.rows = winByPos tbl.rows := by
    rw [winByRank, winByPos]
    have e1 : ((List.range 5).any fun r => (List.range 5).all fun c =>
        rankChecked tbl.rows (r * 5 + c)) =
        ((List.range 5).any fun r => (List.range 5).all fun c =>
        posChecked tbl.rows (r * 5 + c)) := by
      refine any_congr_mem fun r hr => all_congr_mem fun c hc => hpt _ ?_
      have hr5 := List.mem_range.mp hr
      have hc5 := List.mem_range.mp hc
      omega
    have e2 : ((List.range 5).any fun c => (List.range 5).all fun r =>
        rankChecked tbl.rows (r * 5 + c)) =
        ((List.range 5).any fun c => (List.range 5).all fun r =>
        posChecked tbl.rows (r * 5 + c)) := by
      refine any_congr_mem fun c hc => all_congr_mem fun r hr => hpt _ ?_
      have hr5 := List.mem_range.mp hr
      have hc5 := List.mem_range.mp hc
      omega
    have e3 : ((List.range 5).all fun i => rankChecked tbl.rows (i * 5 + i)) =
        ((List.range 5).all fun i => posChecked tbl.rows (i * 5 + i)) := by
      refine all_congr_mem fun i hi => hpt _ ?_
      have hi5 := List.mem_range.mp hi
      omega
    have e4 : ((List.range 5).all fun i => rankChecked tbl.rows (i * 5 + (4 - i))) =
        ((List.range 5).all fun i => posChecked tbl.rows (i * 5 + (4 - i))) := by
      refine all_congr_mem fun i hi => hpt _ ?_
      have hi5 := List.mem_range.mp hi
      omega
    rw [e1, e2, e3, e4]
  simp only [checkForBingo, htbl, hrank, hwin]

/-- Witness for C1 at a concrete input: alice's board has the main
diagonal checked, and `checkForBingo` agrees with the spec grid. -/
theorem checkForBingo_eq_winByPos_witness :
    checkForBingo diagStore "alice" = .ok (winByPos diagBoard) :=
  checkForBingo_eq_winByPos diagStore "alice" ⟨diagBoard, 26⟩
    (by decide) (by decide) (by decide)

/-- C9: on any board with at most 25 cells `checkForBingo` never fails:
it returns the boolean of the rank-indexed win condition `winByRank`
(cells are placed into the grid by their rank in position order, missing
slots stay `false`), and on the empty board it returns `false`. -/
theorem checkForBingoRows_total (rows : List Cell) (h : rows.length ≤ 25) :
    checkForBingoRows rows = some (winByRank rows) ∧
    checkForBingoRows [] = some false :=
  ⟨checkForBingoRows_eq_winByRank rows h, by decide⟩

/-- Witness for C9 at a concrete input: a 5-cell board is accepted and
scored by rank (its five checked cells fill grid row 0, a win). -/
theorem checkForBingoRows_total_witness :
    checkForBingoRows shortBoard = some (winByRank shortBoard) ∧
    checkForBingoRows [] = some false :=
  checkForBingoRows_total shortBoard (by decide)

/-!  Lemmas about the association-list store. -/

theorem getTable_append (s1 s2 : Store) (t : String) :
    getTable (s1 ++ s2) t =
      match getTable s1 t with
      | some tbl => some tbl
      | none => getTable s2 t := by
  induction s1 with
  | nil => simp [getTable]
  | cons p rest ih =>
    obtain ⟨name, tbl⟩ := p
    by_cases h : name = t <;> simp [getTable, h, ih]

theorem getTable_cons (name : String) (x : Table) (rest : Store) (t : String) :
    getTable ((name, x) :: rest) t = if name = t then some x else getTable rest t :=
  rfl

theorem setTable_cons (name : String) (x : Table) (rest : Store) (t : String)
    (tbl : Table) :
    setTable ((name, x) :: rest) t tbl =
      (if name = t then (name, tbl) else (name, x)) :: setTable rest t tbl :=
  rfl

theorem getTable_setTable_self (store : Store) (t : String) (tbl tbl0 : Table)
    (h : getTable store t = some tbl0) :
    getTable (setTable store t tbl) t = some tbl := by
  induction store with
  | nil => simp [getTable] at h
  | cons p rest ih =>
    obtain ⟨name, x⟩ := p
    by_cases hn : name = t
    · rw [setTable_cons, if_pos hn, getTable_cons, if_pos hn]
    · rw [getTable_cons, if_neg hn] at h
      rw [setTable_cons, if_neg hn, getTable_cons, if_neg hn]
      exact ih h

theorem getTable_setTable_ne (store : Store) (t n : String) (tbl : Table)
    (h : n ≠ t) :
    getTable (setTable store t tbl) n = getTable store n := by
  induction store with
  | nil => rfl
  | cons p rest ih =>
    obtain ⟨name, x⟩ := p
    by_cases hn : name = t
    · have hnn : ¬name = n := fun hc => h (hc ▸ hn)
      rw [setTable_cons, if_pos hn, getTable_cons, if_neg hnn, getTable_cons,
        if_neg hnn]
      exact ih
    · rw [setTable_cons, if_neg hn, getTable_cons, getTable_cons]
      by_cases hm : name = n
      · rw [if_pos hm, if_pos hm]
      · rw [if_neg hm, if_neg hm]
        exact ih

theorem setTable_of_getTable_none (store : Store) (t : String) (tbl : Table)
    (h : getTable store t = none) :
    setTable store t tbl = store := by
  induction store with
  | nil => rfl
  | cons p rest ih =>
    obtain ⟨name, x⟩ := p
    by_cases hn : name = t
    · rw [getTable_cons, if_pos hn] at h
      exact absurd h (by simp)
    · rw [getTable_cons, if_neg hn] at h
      rw [setTable_cons, if_neg hn, ih h]

theorem getTable_none_of_not_mem (store : Store) (t : String)
    (h : t ∉ store.map Prod.fst) :
    getTable store t = none := by
  induction store with
  | nil => rfl
  | cons p rest ih =>
    obtain ⟨name, x⟩ := p
    simp only [List.map_cons, List.mem_cons] at h
    push_neg at h
    rw [getTable_cons, if_neg (Ne.symm h.1)]
    exact ih h.2

theorem setTable_getTable_self (store : Store) (t : String) (tbl : Table)
    (hkeys : (store.map Prod.fst).Nodup)
    (h : getTable store t = some tbl) :
    setTable store t tbl = store := by
  induction store with
  | nil => simp [getTable] at h
  | cons p rest ih =>
    obtain ⟨name, x⟩ := p
    simp only [List.map_cons, List.nodup_cons] at hkeys
    by_cases hn : name = t
    · have hx : x = tbl := by
        rw [getTable_cons, if_pos hn] at h
        exact Option.some.inj h
      have hnone : getTable rest t = none :=
        getTable_none_of_not_mem rest t (hn ▸ hkeys.1)
      rw [setTable_cons, if_pos hn, setTable_of_getTable_none rest t tbl hnone, hx]
    · rw [getTable_cons, if_neg hn] at h
      rw [setTable_cons, if_neg hn, ih hkeys.2 h]

theorem setTable_setTable (store : Store) (t : String) (a b : Table) :
    setTable (setTable store t a) t b = setTable store t b := by
  induction store with
  | nil => rfl
  | cons p rest ih =>
    obtain ⟨name, x⟩ := p
    by_cases hn : name = t
    · rw [setTable_cons, if_pos hn, setTable_cons, if_pos hn, setTable_cons,
        if_pos hn, ih]
    · rw [setTable_cons, if_neg hn, setTable_cons, if_neg hn, setTable_cons,
        if_neg hn, ih]

theorem getTable_create_self (store : Store) (t : String) :
    getTable (createTableIfNotExists store t) t =
      some ((getTable store t).getD ⟨[], 1⟩) := by
  rw [createTableIfNotExists]
  match h : getTable store t with
  | some tbl => simp [h]
  | none =>
    rw [getTable_append, h]
    simp [getTable]

/-!  Lemmas about the inserted rows. -/

theorem mkCells_length (sid pos : Nat) (vs : List String) :
    (mkCells sid pos vs).length = vs.length := by
  induction vs generalizing sid pos with
  | nil => rfl
  | cons v rest ih => simp [mkCells, ih]

theorem mkCells_map_value (sid pos : Nat) (vs : List String) :
    (mkCells sid pos vs).map Cell.value = vs := by
  induction vs generalizing sid pos with
  | nil => rfl
  | cons v rest ih => simp [mkCells, ih]

theorem mkCells_map_position (sid pos : Nat) (vs : List String) :
    (mkCells sid pos vs).map Cell.position = List.range' pos vs.length := by
  induction vs generalizing sid pos with
  | nil => rfl
  | cons v rest ih => simp [mkCells, ih, List.range'_succ]

theorem mkCells_checked (sid pos : Nat) (vs : List String) :
    ∀ c ∈ mkCells sid pos vs, c.checked = false := by
  induction vs generalizing sid pos with
  | nil => intro c hc; simp [mkCells] at hc
  | cons v rest ih =>
    intro c hc
    rcases List.mem_cons.mp hc with h | h
    · rw [h]
    · exact ih _ _ c h

/-!  Unfolding equations for the provisioning operations. -/

theorem createOrResetBingoBoard_eq (shuffled : List String) (store : Store)
    (username : String) :
    createOrResetBingoBoard shuffled store username =
      if (shuffled.take 25).isEmpty then .error .noBingoItems
      else .ok (setTable (createTableIfNotExists store (tableFor username))
        (tableFor username)
        (insertValues
          ⟨[], ((getTable (createTableIfNotExists store (tableFor username))
            (tableFor username)).getD ⟨[], 1⟩).nextId⟩
          (shuffled.take 25))) :=
  rfl

theorem ensureBingoBoardExists_eq (shuffled : List String) (store : Store)
    (username : String) :
    ensureBingoBoardExists shuffled store username =
      if ((getTable (createTableIfNotExists store (tableFor username))
            (tableFor username)).getD ⟨[], 1⟩).rows.length = 0 then
        if (shuffled.take 25).isEmpty then .error .noBingoItems
        else .ok (setTable (createTableIfNotExists store (tableFor username))
          (tableFor username)
          (insertValues
            ((getTable (createTableIfNotExists store (tableFor username))
              (tableFor username)).getD ⟨[], 1⟩)
            (shuffled.take 25)))
      else .ok (createTableIfNotExists store (tableFor username)) :=
  rfl

theorem cellClicked_of_getTable (store : Store) (username : String) (id : Nat)
    (tbl : Table) (htbl : getTable store (tableFor username) = some tbl) :
    cellClicked store username id =
      .ok (setTable store (tableFor username) ⟨toggleRows tbl.rows id, tbl.nextId⟩) := by
  simp only [cellClicked, htbl]

/-- C5: with at least 25 phrases in the pool, provisioning succeeds and
leaves the user's table holding exactly 25 cells: their positions are
exactly `0..24` in sampled order (the i-th sampled phrase gets
position i), their values are the first 25 entries of the shuffled pool
(so the whole prior board is replaced by the fresh sample), every value
comes from the phrase pool, and every cell starts unchecked. -/
theorem createOrResetBingoBoard_spec (shuffled pool : List String)
    (store : Store) (username : String)
    (hperm : shuffled.Perm pool) (h25 : 25 ≤ pool.length) :
    ∃ s', createOrResetBingoBoard shuffled store username = .ok s' ∧
      ∃ tbl, getTable s' (tableFor username) = some tbl ∧
        tbl.rows.length = 25 ∧
        tbl.rows.map Cell.position = List.range 25 ∧
        tbl.rows.map Cell.value = shuffled.take 25 ∧
        (∀ c ∈ tbl.rows, c.value ∈ pool) ∧
        (∀ c ∈ tbl.rows, c.checked = false) := by
  have hlen : shuffled.length = pool.length := hperm.length_eq
  have hslen : (shuffled.take 25).length = 25 := by
    rw [List.length_take]
    omega
  have hne : (shuffled.take 25).isEmpty = false := by
    cases hs : shuffled.take 25 with
    | nil => rw [hs] at hslen; simp at hslen
    | cons a l => rfl
  have hget : getTable (createTableIfNotExists store (tableFor username))
      (tableFor username) = some ((getTable store (tableFor username)).getD ⟨[], 1⟩) :=
    getTable_create_self store (tableFor username)
  rw [createOrResetBingoBoard_eq, hne]
  simp only [Bool.false_eq_true, if_false]
  refine ⟨_, rfl, ?_⟩
  refine ⟨insertValues
    ⟨[], ((getTable (createTableIfNotExists store (tableFor username))
      (tableFor username)).getD ⟨[], 1⟩).nextId⟩ (shuffled.take 25),
    getTable_setTable_self _ _ _ _ hget, ?_, ?_, ?_, ?_, ?_⟩
  · simp [insertValues, mkCells_length, hslen]
  · simp only [insertValues, List.nil_append]
    rw [mkCells_map_position, hslen]
    exact (List.range_eq_range' 25).symm
  · simp only [insertValues, List.nil_append]
    exact mkCells_map_value _ _ _
  · intro c hc
    simp only [insertValues, List.nil_append] at hc
    have hv : c.value ∈ (mkCells _ 0 (shuffled.take 25)).map Cell.value :=
      List.mem_map_of_mem Cell.value hc
    rw [mkCells_map_value] at hv
    exact hperm.subset (List.take_subset 25 shuffled hv)
  · intro c hc
    simp only [insertValues, List.nil_append] at hc
    exact mkCells_checked _ _ _ c hc

theorem createTable_of_some (store : Store) (t : String) (tbl : Table)
    (h : getTable store t = some tbl) :
    createTableIfNotExists store t = store := by
  simp only [createTableIfNotExists, h]

theorem length_pos_of_isEmpty_false {α : Type} (l : List α)
    (h : l.isEmpty = false) : 0 < l.length := by
  cases l with
  | nil => simp at h
  | cons a t => simp

/-- Witness for C5 at a concrete input: provisioning from the full
30-phrase catalog produces a full 25-cell board for alice. -/
theorem createOrResetBingoBoard_spec_witness :
    ∃ s', createOrResetBingoBoard bingoItems [] "alice" = .ok s' ∧
      ∃ tbl, getTable s' (tableFor "alice") = some tbl ∧
        tbl.rows.length = 25 ∧
        tbl.rows.map Cell.position = List.range 25 ∧
        tbl.rows.map Cell.value = bingoItems.take 25 ∧
        (∀ c ∈ tbl.rows, c.value ∈ bingoItems) ∧
        (∀ c ∈ tbl.rows, c.checked = false) :=
  createOrResetBingoBoard_spec bingoItems bingoItems [] "alice"
    (List.Perm.refl bingoItems) (by decide)

/-- C2 (evaluation at the failing input): with a phrase pool holding a
single phrase, `createOrResetBingoBoard` raises no error and persists a
board with exactly one cell — a silently short board. -/
theorem createOrReset_singleton_pool_short_board :
    ∃ s', createOrResetBingoBoard ["Safety"] [] "alice" = .ok s' ∧
      ∃ tbl, getTable s' (tableFor "alice") = some tbl ∧
        tbl.rows.length = 1 :=
  ⟨[(tableFor "alice", ⟨[⟨1, "Safety", false, 0⟩], 2⟩)], rfl,
    ⟨[⟨1, "Safety", false, 0⟩], 2⟩, by rfl, rfl⟩

/-- C7: `ensureBingoBoardExists` provisions only when the user's table
has zero cells.  On a store where the user's table is non-empty it
returns the store unchanged, and whenever a call succeeds, an immediately
repeated call (with any fresh random sample) returns the same store, so
calling it twice has the same effect on the board as calling it once. -/
theorem ensureBingoBoardExists_idempotent (shuffled1 shuffled2 : List String)
    (store : Store) (username : String) :
    (∀ tbl, getTable store (tableFor username) = some tbl → tbl.rows ≠ [] →
        ensureBingoBoardExists shuffled1 store username = .ok store) ∧
    (∀ s', ensureBingoBoardExists shuffled1 store username = .ok s' →
        ensureBingoBoardExists shuffled2 s' username = .ok s') := by
  constructor
  · intro tbl htbl hrows
    have hcr : createTableIfNotExists store (tableFor username) = store :=
      createTable_of_some store _ tbl htbl
    have hc : ¬(tbl.rows.length = 0) := fun h0 => hrows (List.length_eq_zero.mp h0)
    rw [ensureBingoBoardExists_eq, hcr, htbl, Option.getD_some, if_neg hc]
  · intro s' h1
    have hget : getTable (createTableIfNotExists store (tableFor username))
        (tableFor username) =
        some ((getTable store (tableFor username)).getD ⟨[], 1⟩) :=
      getTable_create_self store (tableFor username)
    rw [ensureBingoBoardExists_eq, hget, Option.getD_some] at h1
    by_cases c0 : ((getTable store (tableFor username)).getD ⟨[], 1⟩).rows.length = 0
    · rw [if_pos c0] at h1
      cases hemp : (shuffled1.take 25).isEmpty with
      | true =>
        rw [if_pos hemp] at h1
        exact absurd h1 (by simp)
      | false =>
        rw [if_neg (by rw [hemp]; simp)] at h1
        have h2 := Except.ok.inj h1
        subst h2
        have hget2 : getTable (setTable
            (createTableIfNotExists store (tableFor username)) (tableFor username)
            (insertValues ((getTable store (tableFor username)).getD ⟨[], 1⟩)
              (shuffled1.take 25))) (tableFor username) =
            some (insertValues ((getTable store (tableFor username)).getD ⟨[], 1⟩)
              (shuffled1.take 25)) :=
          getTable_setTable_self _ _ _ _ hget
        have hcr2 := createTable_of_some _ _ _ hget2
        have hlenpos : 0 < (shuffled1.take 25).length :=
          length_pos_of_isEmpty_false _ hemp
        have hnz : ¬((insertValues ((getTable store (tableFor username)).getD ⟨[], 1⟩)
            (shuffled1.take 25)).rows.length = 0) := by
          simp only [insertValues, List.length_append, mkCells_length]
          omega
        rw [ensureBingoBoardExists_eq, hcr2, hget2, Option.getD_some, if_neg hnz]
    · rw [if_neg c0] at h1
      have h2 := Except.ok.inj h1
      subst h2
      have hcr2 := createTable_of_some _ _ _ hget
      rw [ensureBingoBoardExists_eq, hcr2, hget, Option.getD_some, if_neg c0]

/-- Witness for C7 at a concrete input: alice already has a non-empty
board in `demoStore`, so ensure leaves the store untouched. -/
theorem ensureBingoBoardExists_idempotent_witness :
    ensureBingoBoardExists bingoItems demoStore "alice" = .ok demoStore :=
  (ensureBingoBoardExists_idempotent bingoItems bingoItems demoStore "alice").1
    ⟨demoRows, 4⟩ (by rfl) (by decide)

/-!  Lemmas about the toggle UPDATE. -/

theorem toggleCell_of_ne (id : Nat) (c : Cell) (h : ¬c.id = id) :
    toggleCell id c = c := by
  simp [toggleCell, h]

theorem toggleCell_toggleCell (id : Nat) (c : Cell) :
    toggleCell id (toggleCell id c) = c := by
  obtain ⟨i, v, ch, p⟩ := c
  by_cases h : i = id <;> simp [toggleCell, h]

theorem toggleRows_toggleRows (rows : List Cell) (id : Nat) :
    toggleRows (toggleRows rows id) id = rows := by
  induction rows with
  | nil => rfl
  | cons c rest ih =>
    simp only [toggleRows, List.map_cons] at ih ⊢
    rw [toggleCell_toggleCell, ih]

theorem toggleRows_of_no_id (rows : List Cell) (id : Nat)
    (h : ∀ c ∈ rows, ¬c.id = id) : toggleRows rows id = rows := by
  induction rows with
  | nil => rfl
  | cons c rest ih =>
    simp only [toggleRows, List.map_cons] at ih ⊢
    rw [toggleCell_of_ne id c (h c (List.mem_cons_self c rest)),
      ih fun x hx => h x (List.mem_cons_of_mem c hx)]

/-- C4 (amended): a toggle whose cellId matches no cell of the user's
(existing) board does not fail: the UPDATE matches zero rows, the
operation reports success, and the store is returned unchanged. -/
theorem cellClicked_unknown_id_noop (store : Store) (username : String)
    (id : Nat) (tbl : Table)
    (hkeys : (store.map Prod.fst).Nodup)
    (htbl : getTable store (tableFor username) = some tbl)
    (hid : ∀ c ∈ tbl.rows, ¬c.id = id) :
    cellClicked store username id = .ok store := by
  rw [cellClicked_of_getTable store username id tbl htbl,
    toggleRows_of_no_id _ _ hid]
  have heta : (⟨tbl.rows, tbl.nextId⟩ : Table) = tbl := rfl
  rw [heta, setTable_getTable_self store _ tbl hkeys htbl]

/-- Witness for the amended C4 at a concrete input: id 99 is on nobody's
board; the toggle for bob succeeds and changes nothing. -/
theorem cellClicked_unknown_id_noop_witness :
    cellClicked demoStore "bob" 99 = .ok demoStore :=
  cellClicked_unknown_id_noop demoStore "bob" 99 ⟨demoRows, 4⟩
    (by decide) (by rfl) (by decide)

/-- C4 (counterexample): cellId 99 does not belong to alice's board, yet
`cellClicked` returns success (never a NotFound/Forbidden error) and
leaves the store as it was. -/
theorem cellClicked_unknown_id_counterexample :
    (∀ c ∈ demoRows, ¬c.id = 99) ∧
    cellClicked demoStore "alice" 99 = .ok demoStore := by
  exact ⟨by decide, by rfl⟩

/-- C6: toggling a cellId that belongs to the user's board flips the
checked flag of exactly that cell — its phrase and position are kept, the
cells before and after it are untouched, the SERIAL counter is untouched,
and every other table of the store is untouched. -/
theorem cellClicked_flips_exactly_one (store : Store) (username : String)
    (id : Nat) (tbl : Table)
    (htbl : getTable store (tableFor username) = some tbl)
    (hids : (tbl.rows.map Cell.id).Nodup)
    (hmem : ∃ cell ∈ tbl.rows, cell.id = id) :
    ∃ pre cell post, tbl.rows = pre ++ cell :: post ∧ cell.id = id ∧
      cellClicked store username id =
        .ok (setTable store (tableFor username)
          ⟨pre ++ { cell with checked := !cell.checked } :: post, tbl.nextId⟩) ∧
      ∀ name, name ≠ tableFor username →
        getTable (setTable store (tableFor username)
          ⟨pre ++ { cell with checked := !cell.checked } :: post, tbl.nextId⟩)
          name = getTable store name := by
  obtain ⟨cell, hcellmem, hcellid⟩ := hmem
  obtain ⟨pre, post, hsplit⟩ := List.append_of_mem hcellmem
  have hnd := hids
  rw [hsplit, List.map_append, List.map_cons] at hnd
  have hnd2 : cell.id ∉ pre.map Cell.id ∧ cell.id ∉ post.map Cell.id := by
    have h1 := List.nodup_middle.mp hnd
    rw [List.nodup_cons] at h1
    have h2 := h1.1
    rw [List.mem_append] at h2
    push_neg at h2
    exact h2
  have hpre : ∀ c ∈ pre, ¬c.id = id := by
    intro c hc hcid
    apply hnd2.1
    rw [hcellid, ← hcid]
    exact List.mem_map_of_mem Cell.id hc
  have hpost : ∀ c ∈ post, ¬c.id = id := by
    intro c hc hcid
    apply hnd2.2
    rw [hcellid, ← hcid]
    exact List.mem_map_of_mem Cell.id hc
  refine ⟨pre, cell, post, hsplit, hcellid, ?_, ?_⟩
  · rw [cellClicked_of_getTable store username id tbl htbl]
    have htog : toggleRows tbl.rows id =
        pre ++ { cell with checked := !cell.checked } :: post := by
      rw [hsplit]
      show (pre ++ cell :: post).map (toggleCell id) = _
      rw [List.map_append, List.map_cons]
      have h1 : pre.map (toggleCell id) = pre := toggleRows_of_no_id pre id hpre
      have h2 : post.map (toggleCell id) = post := toggleRows_of_no_id post id hpost
      have h3 : toggleCell id cell = { cell with checked := !cell.checked } := by
        rw [toggleCell, if_pos hcellid]
      rw [h1, h2, h3]
    rw [htog]
  · intro name hname
    exact getTable_setTable_ne store _ name _ hname

/-- Witness for C6 at a concrete input: toggling id 2 on alice's board
flips exactly the middle cell. -/
theorem cellClicked_flips_exactly_one_witness :
    ∃ pre cell post, demoRows = pre ++ cell :: post ∧ cell.id = 2 ∧
      cellClicked demoStore "alice" 2 =
        .ok (setTable demoStore (tableFor "alice")
          ⟨pre ++ { cell with checked := !cell.checked } :: post, 4⟩) ∧
      ∀ name, name ≠ tableFor "alice" →
        getTable (setTable demoStore (tableFor "alice")
          ⟨pre ++ { cell with checked := !cell.checked } :: post, 4⟩)
          name = getTable demoStore name :=
  cellClicked_flips_exactly_one demoStore "alice" 2 ⟨demoRows, 4⟩
    (by rfl) (by decide) (by decide)

/-- C8: toggling the same cellId twice in succession is the identity on
the whole store: the second UPDATE flips the cell back and every other
row and table was never touched. -/
theorem cellClicked_involutive (store : Store) (username : String) (id : Nat)
    (tbl : Table)
    (hkeys : (store.map Prod.fst).Nodup)
    (htbl : getTable store (tableFor username) = some tbl)
    (hmem : ∃ cell ∈ tbl.rows, cell.id = id) :
    (cellClicked store username id).bind (fun s2 => cellClicked s2 username id) =
      .ok store := by
  rw [cellClicked_of_getTable store username id tbl htbl]
  show cellClicked
    (setTable store (tableFor username) ⟨toggleRows tbl.rows id, tbl.nextId⟩)
    username id = .ok store
  have hget2 : getTable
      (setTable store (tableFor username) ⟨toggleRows tbl.rows id, tbl.nextId⟩)
      (tableFor username) = some ⟨toggleRows tbl.rows id, tbl.nextId⟩ :=
    getTable_setTable_self _ _ _ _ htbl
  rw [cellClicked_of_getTable _ _ _ _ hget2]
  show Except.ok (setTable
    (setTable store (tableFor username) ⟨toggleRows tbl.rows id, tbl.nextId⟩)
    (tableFor username) ⟨toggleRows (toggleRows tbl.rows id) id, tbl.nextId⟩) =
    .ok store
  rw [setTable_setTable, toggleRows_toggleRows]
  have heta : (⟨tbl.rows, tbl.nextId⟩ : Table) = tbl := rfl
  rw [heta, setTable_getTable_self store _ tbl hkeys htbl]

/-- Witness for C8 at a concrete input: toggling id 2 twice on alice's
board restores `demoStore` exactly. -/
theorem cellClicked_involutive_witness :
    (cellClicked demoStore "alice" 2).bind (fun s2 => cellClicked s2 "alice" 2) =
      .ok demoStore :=
  cellClicked_involutive demoStore "alice" 2 ⟨demoRows, 4⟩
    (by decide) (by rfl) (by decide)

/-- C3 (amended): `checkForBingo` performs no board-shape validation.
On any board with at most 25 cells — including boards that are not a
0..24 position permutation — it silently returns a boolean, and on a
board with more than 25 cells it crashes with a TypeError rather than an
InvalidBoardShape error. -/
theorem checkForBingoRows_no_validation (rows : List Cell) :
    (rows.length ≤ 25 → ∃ b : Bool, checkForBingoRows rows = some b) ∧
    (25 < rows.length → checkForBingoRows rows = none) := by
  constructor
  · intro h
    exact ⟨winByRank rows, checkForBingoRows_eq_winByRank rows h⟩
  · intro h
    have hg : buildGrid ((sortByPos rows).map Cell.checked) = none := by
      rw [buildGrid, if_neg]
      simp only [List.length_map, length_sortByPos]
      omega
    simp only [checkForBingoRows, hg]

/-- Witness for the amended C3 at concrete inputs: a 3-cell board yields
a boolean; a 26-cell board crashes. -/
theorem checkForBingoRows_no_validation_witness :
    (∃ b : Bool, checkForBingoRows demoRows = some b) ∧
    checkForBingoRows bigBoard = none :=
  ⟨(checkForBingoRows_no_validation demoRows).1 (by decide),
    (checkForBingoRows_no_validation bigBoard).2 (by decide)⟩

/-- C3 (counterexample): alice's board is empty — certainly not exactly
25 cells — yet `checkForBingo` returns the boolean `false` instead of
failing with an InvalidBoardShape error. -/
theorem checkForBingo_no_shape_error_counterexample :
    ([] : List Cell).length ≠ 25 ∧
    checkForBingo emptyTableStore "alice" = .ok false := by
  exact ⟨by decide, by rfl⟩

/-- C10: `sanitizeTableName` deletes every character outside
`[a-zA-Z0-9_]`, so it is not injective: the distinct usernames "al.ice"
and "alice" produce the same table name, and consequently ensure,
provision, toggle and win detection each act on one and the same table
for the two users. -/
theorem sanitizeTableName_collision :
    ("al.ice" : String) ≠ "alice" ∧
    sanitizeTableName "al.ice" = sanitizeTableName "alice" ∧
    tableFor "al.ice" = tableFor "alice" ∧
    (∀ shuffled store, ensureBingoBoardExists shuffled store "al.ice" =
        ensureBingoBoardExists shuffled store "alice") ∧
    (∀ shuffled store, createOrResetBingoBoard shuffled store "al.ice" =
        createOrResetBingoBoard shuffled store "alice") ∧
    (∀ store id, cellClicked store "al.ice" id = cellClicked store "alice" id) ∧
    (∀ store, checkForBingo store "al.ice" = checkForBingo store "alice") := by
  have htf : tableFor "al.ice" = tableFor "alice" := by decide
  refine ⟨by decide, by decide, htf, ?_, ?_, ?_, ?_⟩
  · intro shuffled store
    rw [ensureBingoBoardExists_eq, ensureBingoBoardExists_eq, htf]
  · intro shuffled store
    rw [createOrResetBingoBoard_eq, createOrResetBingoBoard_eq, htf]
  · intro store id
    simp only [cellClicked, htf]
  · intro store
    simp only [checkForBingo, htf]

end Bingo
